import Mathlib

/-!
Shallow embedding of the `sageopt.coniclifts` core: the scalar-expression data
model, the elementwise constraint compiler (`elementwise.py`), the nonlinear
epigraph atoms (`exp.py`, `norms.py`) and the small-`m` branch of the primal
ordinary SAGE cone (`ordinary_sage_cone.py`).

Conventions of the embedding:
* Python floats are modelled as `ℚ` (no floating-point rounding is at issue in
  any of the verified claims).
* Column indices are `ℤ`, since `ScalarVariable.curr_variable_count() - 1` can
  be `-1` when no variable has been allocated yet.
* The process-wide `ScalarVariable` counter is passed explicitly as a `vc : Nat`
  argument wherever the Python code reads `ScalarVariable.curr_variable_count()`
  or allocates a fresh variable.
* Python `raise` is modelled by `Except String`.
-/

namespace Sageopt

/-- A primitive cone descriptor (`coniclifts.cones.Cone`): a tag among
`"0"`, `"+"`, `"S"`, `"e"` and a length. -/
structure Cone where
  type : String
  len : Nat
deriving DecidableEq

/-- The parsed form of one affine argument of a `NonlinearScalarAtom`
(`NonlinearScalarAtom.parse_arg`): in the Python tuple representation,
`arg[:-1]` is the list of `(ScalarVariable, coefficient)` pairs (here `terms`,
with variables replaced by their ids) and `arg[-1][1]` is the constant term
(here `offset`); `len(arg) - 1 = terms.length`. -/
structure AtomArg where
  terms : List (Nat × ℚ)
  offset : ℚ
deriving DecidableEq

/-- An atom of a `ScalarExpression`: a `ScalarVariable` (carrying its
process-wide id, which doubles as a column index), or a nonlinear atom —
`Exponential` or `Vector2Norm` — carrying its parsed argument(s) and its
per-atom-type counter id. -/
inductive Atom where
  | var : Nat → Atom
  | expAtom : AtomArg → Nat → Atom
  | norm2Atom : List AtomArg → Nat → Atom
deriving DecidableEq

/-- The `.id` attribute: the variable id for a `ScalarVariable`, the
per-atom-type counter id for a nonlinear atom. -/
def Atom.id : Atom → Nat
  | .var i => i
  | .expAtom _ i => i
  | .norm2Atom _ i => i

/-- Whether the atom is a `ScalarVariable`. -/
def Atom.is_variable : Atom → Bool
  | .var _ => true
  | _ => false

/-- `is_convex` per atom kind: a variable is affine (hence convex), and both
`Exponential.is_convex` and `Vector2Norm.is_convex` return `True`. -/
def Atom.is_convex : Atom → Bool
  | .var _ => true
  | .expAtom _ _ => true
  | .norm2Atom _ _ => true

/-- `is_concave` per atom kind: a variable is affine (hence concave), and both
`Exponential.is_concave` and `Vector2Norm.is_concave` return `False`. -/
def Atom.is_concave : Atom → Bool
  | .var _ => true
  | .expAtom _ _ => false
  | .norm2Atom _ _ => false

/-- A `ScalarExpression`: an ordered association from atoms to coefficients
(the insertion-ordered dict `atoms_to_coeffs`) plus a constant `offset`. -/
structure ScalarExpression where
  atoms_to_coeffs : List (Atom × ℚ)
  offset : ℚ
deriving DecidableEq

/-- Merge a coefficient into an ordered association list: add to the existing
entry for the atom, or append a new entry at the end (Python dict update). -/
def insertCoeff : List (Atom × ℚ) → Atom → ℚ → List (Atom × ℚ)
  | [], a, c => [(a, c)]
  | (a', c') :: t, a, c =>
      if a' = a then (a', c' + c) :: t else (a', c') :: insertCoeff t a c

/-- `x + w * y` on scalar expressions: merge coefficients atom by atom and
prune zero-coefficient entries afterwards (spec invariant: zero-coefficient
atoms are never stored persistently). -/
def ScalarExpression.combine (x y : ScalarExpression) (w : ℚ) : ScalarExpression :=
  { atoms_to_coeffs :=
      (y.atoms_to_coeffs.foldl (fun acc p => insertCoeff acc p.1 (w * p.2))
        x.atoms_to_coeffs).filter (fun p => p.2 != 0),
    offset := x.offset + w * y.offset }

/-- Subtraction of scalar expressions. -/
def ScalarExpression.sub (x y : ScalarExpression) : ScalarExpression :=
  ScalarExpression.combine x y (-1)

/-- A `ScalarExpression` is affine iff every atom is a `ScalarVariable`. -/
def ScalarExpression.is_affine (se : ScalarExpression) : Bool :=
  se.atoms_to_coeffs.all (fun p => p.1.is_variable)

/-- Sign-aware curvature of a scalar expression (spec 4.1): each nonlinear
atom must be convex when used with a nonnegative coefficient, or concave when
used with a nonpositive coefficient. -/
def ScalarExpression.is_convex (se : ScalarExpression) : Bool :=
  se.atoms_to_coeffs.all
    (fun p => (decide (0 ≤ p.2) && p.1.is_convex) || (decide (p.2 ≤ 0) && p.1.is_concave))

/-- Evaluate a scalar expression under an atom valuation `ν` (for a
`ScalarVariable`, `ν` returns the assigned value; for a nonlinear atom, its
recomputed value): `offset + Σ coeff * ν atom`. -/
def ScalarExpression.value (ν : Atom → ℚ) (se : ScalarExpression) : ℚ :=
  se.atoms_to_coeffs.foldl (fun s p => s + p.2 * ν p.1) se.offset

/-- An `Expression` after `.ravel()`: a flat list of scalar expressions. -/
def Expression.sub (x y : List ScalarExpression) : List ScalarExpression :=
  List.zipWith ScalarExpression.sub x y

/-- `Expression.is_affine`: every entry is affine. -/
def Expression.is_affine (e : List ScalarExpression) : Bool :=
  e.all ScalarExpression.is_affine

/-- `Expression.is_convex`: the elementwise list of curvature flags. -/
def Expression.is_convex (e : List ScalarExpression) : List Bool :=
  e.map ScalarExpression.is_convex

/-- The constraint operator tokens accepted by `ElementwiseConstraint`. -/
inductive Op where
  | eq
  | le
  | ge
deriving DecidableEq

/-- An `ElementwiseConstraint` after construction: the original operands and
operator, the canonical expression `expr`, the canonical operator (`==` or
`<=`), and the `epigraph_checked` flag. -/
structure ElementwiseConstraint where
  lhs : List ScalarExpression
  rhs : List ScalarExpression
  initial_operator : Op
  expr : List ScalarExpression
  operator : Op
  epigraph_checked : Bool
deriving DecidableEq

/-- The class-level flag `ElementwiseConstraint._CURVATURE_CHECK_` (False). -/
def ElementwiseConstraint._CURVATURE_CHECK_ : Bool := false

/-- `ElementwiseConstraint.__init__`: canonicalize the operator direction
(`>=` stores `rhs - lhs`, otherwise `lhs - rhs`), optionally run the (disabled)
curvature check, and set `epigraph_checked` — `true` for `==`, `false` for
inequalities. -/
def ElementwiseConstraint.init (lhs rhs : List ScalarExpression) (operator : Op) :
    Except String ElementwiseConstraint :=
  if operator = Op.eq then
    let expr := Expression.sub lhs rhs
    if ElementwiseConstraint._CURVATURE_CHECK_ && !(Expression.is_affine expr) then
      Except.error "Equality constraints must be affine."
    else
      Except.ok { lhs := lhs, rhs := rhs, initial_operator := operator,
                  expr := expr, operator := Op.eq, epigraph_checked := true }
  else
    let expr := if operator = Op.ge then Expression.sub rhs lhs else Expression.sub lhs rhs
    if ElementwiseConstraint._CURVATURE_CHECK_ && !((Expression.is_convex expr).all (fun b => b)) then
      Except.error "Cannot canonicalize."
    else
      Except.ok { lhs := lhs, rhs := rhs, initial_operator := operator,
                  expr := expr, operator := Op.le, epigraph_checked := false }

/-- `ElementwiseConstraint.is_affine`: `True` outright when the canonical
operator is `==`, otherwise delegate to the expression. -/
def ElementwiseConstraint.is_affine (c : ElementwiseConstraint) : Bool :=
  if c.operator = Op.eq then true else Expression.is_affine c.expr

/-- The emission loop of `ElementwiseConstraint.conic_form`, building the
parallel coordinate lists `(A_rows, A_cols, A_vals)` and the offset vector `b`.
`vc` is `ScalarVariable.curr_variable_count()`; `i` is the row index of the
first remaining scalar expression. A row with no atoms contributes the single
placeholder entry `(i, vc - 1, 0)` and `b[i] = -offset`; all other rows
contribute their atoms' ids as columns with negated coefficients as values. -/
def ecEmit (vc : Nat) : Nat → List ScalarExpression → List Nat × List ℤ × List ℚ × List ℚ
  | _, [] => ([], [], [], [])
  | i, se :: rest =>
    let prev := ecEmit vc (i + 1) rest
    if se.atoms_to_coeffs.isEmpty then
      (i :: prev.1, ((vc : ℤ) - 1) :: prev.2.1, 0 :: prev.2.2.1, (-se.offset) :: prev.2.2.2)
    else
      (List.replicate se.atoms_to_coeffs.length i ++ prev.1,
       se.atoms_to_coeffs.map (fun p => (p.1.id : ℤ)) ++ prev.2.1,
       se.atoms_to_coeffs.map (fun p => -p.2) ++ prev.2.2.1,
       (-se.offset) :: prev.2.2.2)

/-- `ElementwiseConstraint.conic_form`: raise unless `epigraph_checked`;
choose the cone (`'0'` for `==`, `'+'` for `<=`, raise otherwise); emit the
coordinate lists; return `(A_vals, A_rows, A_cols, b, K, [])`. -/
def ElementwiseConstraint.conic_form (c : ElementwiseConstraint) (vc : Nat) :
    Except String (List ℚ × List Nat × List ℤ × List ℚ × List Cone × List Nat) :=
  if !c.epigraph_checked then
    Except.error "Cannot canonicalize without check for epigraph substitution."
  else
    match c.operator with
    | Op.ge => Except.error "Unknown operator."
    | op =>
      let K : List Cone := [Cone.mk (if op = Op.eq then "0" else "+") c.expr.length]
      let out := ecEmit vc 0 c.expr
      Except.ok (out.2.2.1, out.1, out.2.1, out.2.2.2, K, [])

/-- `np.max(0, expr_val)` as written in `ElementwiseConstraint.violation`:
the second positional argument of `np.max` is the reduction axis, so the
residual array is passed as `axis`; a float-valued ndarray is not a valid
axis and numpy raises a TypeError. (The intended call, per the spec, is the
elementwise `np.maximum(0, expr_val)`.) -/
def npMaxZeroAxis (_exprVal : List ℚ) : Except String (List ℚ) :=
  Except.error "TypeError: expr_val passed as the axis argument of np.max"

/-- `np.min(0, expr_val)` as written in `ElementwiseConstraint.violation`:
same situation as `npMaxZeroAxis` — the residual array is passed as the
reduction axis and numpy raises a TypeError. -/
def npMinZeroAxis (_exprVal : List ℚ) : Except String (List ℚ) :=
  Except.error "TypeError: expr_val passed as the axis argument of np.min"

/-- The default norm of `ElementwiseConstraint.violation`: absolute value for
a length-1 residual, Euclidean norm otherwise. -/
noncomputable def defaultNorm (x : List ℚ) : ℝ :=
  if x.length = 1 then |((x.headI : ℚ) : ℝ)|
  else Real.sqrt ((x.map (fun t => ((t : ℝ)) ^ 2)).sum)

/-- `ElementwiseConstraint.violation` with the default norm, evaluated under
the atom valuation `ν`: recompute `lhs - rhs`, take its value, branch on the
initial operator (`np.max(0, ·)` for `<=`, `np.min(0, ·)` for `>=`, `np.abs`
for `==`), then reduce the residual with the default norm. -/
noncomputable def ElementwiseConstraint.violation (c : ElementwiseConstraint) (ν : Atom → ℚ) :
    Except String ℝ := do
  let exprVal := (Expression.sub c.lhs c.rhs).map (ScalarExpression.value ν)
  let residual ← match c.initial_operator with
    | Op.le => npMaxZeroAxis exprVal
    | Op.ge => npMinZeroAxis exprVal
    | Op.eq => Except.ok (exprVal.map (fun t => |t|))
  Except.ok (defaultNorm residual)

/-- The residual computation as the spec words it, for comparison with
`ElementwiseConstraint.violation`: the entrywise `max(0, expr)` for `<=`,
`min(0, expr)` for `>=`, `abs(expr)` for `==`, reduced by the default norm. -/
noncomputable def ElementwiseConstraint.violation_specified (c : ElementwiseConstraint)
    (ν : Atom → ℚ) : ℝ :=
  let exprVal := (Expression.sub c.lhs c.rhs).map (ScalarExpression.value ν)
  let residual := match c.initial_operator with
    | Op.le => exprVal.map (fun t => max 0 t)
    | Op.ge => exprVal.map (fun t => min 0 t)
    | Op.eq => exprVal.map (fun t => |t|)
  defaultNorm residual

/-- `Exponential.epigraph_conic_form`, after the aux-variable caching
preamble: `x` is the parsed argument, `auxId` the id of the (already cached)
auxiliary `ScalarVariable`, and `vc` the value of
`ScalarVariable.curr_variable_count()` at emission time. Row 0 is built from
the argument's terms with `b[0]` its constant; row 1 selects the auxiliary
variable with coefficient 1; row 2 holds a single zero placeholder at column
`vc - 1` with `b[2] = 1`. Returns `(A_vals, A_rows, A_cols, b, K, aux_var)`. -/
def Exponential.epigraph_conic_form (x : AtomArg) (auxId vc : Nat) :
    List ℚ × List Nat × List ℤ × List ℚ × List Cone × Nat :=
  let A_rows := List.replicate x.terms.length 0 ++ [1, 2]
  let A_cols := x.terms.map (fun p => (p.1 : ℤ)) ++ [(auxId : ℤ), (vc : ℤ) - 1]
  let A_vals := x.terms.map (fun p => p.2) ++ [1, 0]
  let b : List ℚ := [x.offset, 0, 1]
  (A_vals, A_rows, A_cols, b, [Cone.mk "e" 3], auxId)

/-- The caching wrapper around `Exponential.epigraph_conic_form`: when
`aux_var is None`, a fresh `ScalarVariable` is created (its id is the current
counter value, and the counter is incremented before the fragment is
emitted); otherwise the cached auxiliary is reused unchanged. Returns
`(output, new aux_var, new counter)`. -/
def Exponential.epigraph_step (x : AtomArg) (aux : Option Nat) (vc : Nat) :
    (List ℚ × List Nat × List ℤ × List ℚ × List Cone × Nat) × Option Nat × Nat :=
  match aux with
  | none => (Exponential.epigraph_conic_form x vc (vc + 1), some vc, vc + 1)
  | some a => (Exponential.epigraph_conic_form x a vc, some a, vc)

/-- The argument loop of `Vector2Norm.epigraph_conic_form`: for the argument
at position `i`, append `len(arg) - 1` copies of row index `i + 1`, the
argument's variable ids as columns and its coefficients as values, and record
the argument's constant term — which the code writes to `b[i]`, not
`b[i + 1]`. Returns `(A_rows, A_cols, A_vals, offsets)` contributed by the
arguments. -/
def v2nLoop : Nat → List AtomArg → List Nat × List ℤ × List ℚ × List ℚ
  | _, [] => ([], [], [], [])
  | i, arg :: rest =>
    let prev := v2nLoop (i + 1) rest
    (List.replicate arg.terms.length (i + 1) ++ prev.1,
     arg.terms.map (fun p => (p.1 : ℤ)) ++ prev.2.1,
     arg.terms.map (fun p => p.2) ++ prev.2.2.1,
     arg.offset :: prev.2.2.2)

/-- `Vector2Norm.epigraph_conic_form`, after the aux-variable caching
preamble. `b` starts as `np.zeros(len(args) + 1)` and the loop fills
`b[i]` (`i = 0 .. len(args) - 1`) with the i-th argument's constant term, so
`b` is the list of argument constants followed by a trailing `0`. Kept
faithful to the source, this function returns the tuple in the order
`(A_rows, A_cols, A_vals, b, K, aux_var)` — row indices first. -/
def Vector2Norm.epigraph_conic_form (args : List AtomArg) (auxId : Nat) :
    List Nat × List ℤ × List ℚ × List ℚ × List Cone × Nat :=
  let m := args.length + 1
  let lp := v2nLoop 0 args
  (0 :: lp.1, (auxId : ℤ) :: lp.2.1, 1 :: lp.2.2.1, lp.2.2.2 ++ [0], [Cone.mk "S" m], auxId)

/-- The caching wrapper around `Vector2Norm.epigraph_conic_form`, analogous
to `Exponential.epigraph_step`. -/
def Vector2Norm.epigraph_step (args : List AtomArg) (aux : Option Nat) (vc : Nat) :
    (List Nat × List ℤ × List ℚ × List ℚ × List Cone × Nat) × Option Nat × Nat :=
  match aux with
  | none => (Vector2Norm.epigraph_conic_form args vc, some vc, vc + 1)
  | some a => (Vector2Norm.epigraph_conic_form args a, some a, vc)

/-- The `Vector2Norm` fragment as the spec describes it, for comparison with
`Vector2Norm.epigraph_conic_form`: the tuple is ordered
`(coefficients, row_indices, col_indices, offset_vector, cone_list,
auxiliary_variable)`; the auxiliary variable has coefficient 1 in coordinate
0 (with offset 0 there), and argument `i` contributes its coefficients and
its constant term in coordinate `i + 1`. -/
def Vector2Norm.epigraph_specified (args : List AtomArg) (auxId : Nat) :
    List ℚ × List Nat × List ℤ × List ℚ × List Cone × Nat :=
  let m := args.length + 1
  let lp := v2nLoop 0 args
  (1 :: lp.2.2.1, 0 :: lp.1, (auxId : ℤ) :: lp.2.1, 0 :: lp.2.2.2, [Cone.mk "S" m], auxId)

/-- `np.linalg.norm(x, ord=np.inf)`: the maximum absolute entry. -/
def normInf (x : List ℚ) : ℚ :=
  (x.map (fun t => |t|)).foldr max 0

/-- The `m <= 2` branch of `PrimalOrdinarySageCone.violation` (with the
default `norm_ord = np.inf` and any `rough`): `residual = c.reshape((-1,))`
is a numpy view of `c`, so the in-place update `residual[residual >= 0] = 0`
also rewrites `c`; the returned `np.linalg.norm(c, ord=norm_ord)` is
therefore the inf-norm of the updated residual, i.e. of the entrywise
`min(c, 0)`. The `m > 2` branch delegates to the external solver through
`PrimalOrdinarySageCone.project` and is outside the modelled core, so it is
mapped to `none`. -/
def PrimalOrdinarySageCone.violation (c : List ℚ) : Option ℚ :=
  if c.length > 2 then none
  else
    let residual := c.map (fun t => if 0 ≤ t then 0 else t)
    some (normInf residual)

/-- The per-row coordinate entries `(row, col, value)` of the
`ElementwiseConstraint.conic_form` emission, row blocks in order: row `i`
contributes the placeholder `(i, vc - 1, 0)` when its scalar expression has
no atoms, and one entry `(i, atom.id, -coeff)` per stored atom otherwise. -/
def ecBlocks (vc : Nat) : Nat → List ScalarExpression → List (Nat × ℤ × ℚ)
  | _, [] => []
  | i, se :: rest =>
    (if se.atoms_to_coeffs.isEmpty then [(i, (vc : ℤ) - 1, (0 : ℚ))]
     else se.atoms_to_coeffs.map (fun p => (i, (p.1.id : ℤ), -p.2))) ++ ecBlocks vc (i + 1) rest

lemma replicate_length_eq_map_const {α β : Type} (l : List α) (c : β) :
    List.replicate l.length c = l.map (fun _ => c) := by
  induction l with
  | nil => rfl
  | cons a t ih => rw [List.length_cons, List.replicate_succ, ih, List.map_cons]

lemma ecEmit_eq_blocks (vc : Nat) : ∀ (i : Nat) (es : List ScalarExpression),
    ecEmit vc i es =
      ((ecBlocks vc i es).map (fun t => t.1),
       (ecBlocks vc i es).map (fun t => t.2.1),
       (ecBlocks vc i es).map (fun t => t.2.2),
       es.map (fun se => -se.offset)) := by
  intro i es
  induction es generalizing i with
  | nil => rfl
  | cons se rest ih =>
    by_cases h : se.atoms_to_coeffs.isEmpty
    · simp only [ecEmit, ecBlocks, h, ite_true, ih, List.map_append, List.map_cons]
      rfl
    · simp only [ecEmit, ecBlocks, h, ite_false, Bool.false_eq_true, ih, List.map_append,
        List.map_map, List.map_cons]
      simp only [Function.comp_def, replicate_length_eq_map_const]

lemma ecEmit_entries (vc i : Nat) (es : List ScalarExpression) :
    ((ecEmit vc i es).1).zip (((ecEmit vc i es).2.1).zip ((ecEmit vc i es).2.2.1))
      = ecBlocks vc i es := by
  rw [ecEmit_eq_blocks]
  show (List.map _ _).zip ((List.map _ _).zip (List.map _ _)) = _
  rw [List.zip_map', List.zip_map']
  simp

lemma ecBlocks_mem_fst_ge (vc : Nat) : ∀ (es : List ScalarExpression) (i : Nat)
    (t : Nat × ℤ × ℚ), t ∈ ecBlocks vc i es → i ≤ t.1 := by
  intro es
  induction es with
  | nil => intro i t h; simp [ecBlocks] at h
  | cons se rest ih =>
    intro i t h
    simp only [ecBlocks, List.mem_append] at h
    rcases h with h | h
    · by_cases hq : se.atoms_to_coeffs.isEmpty
      · simp [hq] at h
        subst h
        exact Nat.le_refl i
      · simp [hq] at h
        obtain ⟨a, b, -, rfl⟩ := h
        exact Nat.le_refl i
    · have := ih (i + 1) t h
      omega

lemma ecBlocks_filter (vc : Nat) : ∀ (es : List ScalarExpression) (i p : Nat)
    (se : ScalarExpression), es.get? p = some se →
    (ecBlocks vc i es).filter (fun t => t.1 == i + p)
      = (if se.atoms_to_coeffs.isEmpty then [((i + p : Nat), (vc : ℤ) - 1, (0 : ℚ))]
         else se.atoms_to_coeffs.map (fun q => (i + p, (q.1.id : ℤ), -q.2))) := by
  intro es
  induction es with
  | nil => intro i p se h; simp at h
  | cons se' rest ih =>
    intro i p se h
    match p with
    | 0 =>
      simp only [List.get?, Option.some.injEq] at h
      subst h
      have hrest : (ecBlocks vc (i + 1) rest).filter (fun t => t.1 == i) = [] := by
        rw [List.filter_eq_nil_iff]
        intro t ht
        have := ecBlocks_mem_fst_ge vc rest (i + 1) t ht
        simp only [beq_iff_eq]
        omega
      have hblock : ((if se'.atoms_to_coeffs.isEmpty then [(i, (vc : ℤ) - 1, (0 : ℚ))]
          else se'.atoms_to_coeffs.map (fun q => (i, (q.1.id : ℤ), -q.2))).filter
            (fun t => t.1 == i))
          = (if se'.atoms_to_coeffs.isEmpty then [(i, (vc : ℤ) - 1, (0 : ℚ))]
             else se'.atoms_to_coeffs.map (fun q => (i, (q.1.id : ℤ), -q.2))) := by
        rw [List.filter_eq_self]
        intro t ht
        by_cases hq : se'.atoms_to_coeffs.isEmpty
        · simp [hq] at ht
          subst ht
          simp
        · simp [hq] at ht
          obtain ⟨a, b, -, rfl⟩ := ht
          simp
      simp only [ecBlocks, List.filter_append, Nat.add_zero, hrest, List.append_nil, hblock]
    | n + 1 =>
      simp only [List.get?] at h
      have hblock : ((if se'.atoms_to_coeffs.isEmpty then [(i, (vc : ℤ) - 1, (0 : ℚ))]
          else se'.atoms_to_coeffs.map (fun q => (i, (q.1.id : ℤ), -q.2))).filter
            (fun t => t.1 == i + (n + 1))) = [] := by
        rw [List.filter_eq_nil_iff]
        intro t ht
        by_cases hq : se'.atoms_to_coeffs.isEmpty
        · simp [hq] at ht
          subst ht
          simp only [beq_iff_eq]
          show ¬(i = i + (n + 1))
          omega
        · simp [hq] at ht
          obtain ⟨a, b, -, rfl⟩ := ht
          simp only [beq_iff_eq]
          show ¬(i = i + (n + 1))
          omega
      have := ih (i + 1) n se h
      rw [show i + 1 + n = i + (n + 1) by omega] at this
      simp only [ecBlocks, List.filter_append, hblock, List.nil_append, this]

/-- C3: constructing `lhs >= rhs` stores the expression `rhs - lhs` with
canonical operator `<=`; once the epigraph check is recorded, `lhs >= rhs`
and `rhs <= lhs` compile via `conic_form` to identical output, whose cone
list is the single nonnegative-orthant cone `'+'` (never a distinct `'>='`
form). -/
theorem geq_normalizes_to_leq_conic_form (lhs rhs : List ScalarExpression) (vc : Nat) :
    (ElementwiseConstraint.init lhs rhs Op.ge).map (fun c => (c.expr, c.operator))
      = Except.ok (Expression.sub rhs lhs, Op.le) ∧
    (ElementwiseConstraint.init lhs rhs Op.ge).map
        (fun c => ElementwiseConstraint.conic_form { c with epigraph_checked := true } vc)
      = (ElementwiseConstraint.init rhs lhs Op.le).map
        (fun c => ElementwiseConstraint.conic_form { c with epigraph_checked := true } vc) ∧
    (ElementwiseConstraint.init lhs rhs Op.ge).map
        (fun c => (ElementwiseConstraint.conic_form { c with epigraph_checked := true } vc).map
          (fun out => out.2.2.2.2.1))
      = Except.ok (Except.ok [Cone.mk "+" (Expression.sub rhs lhs).length]) :=
  ⟨rfl, rfl, rfl⟩

/-- C4: `conic_form` raises (before producing any output) whenever
`epigraph_checked` is false at the call; at construction the flag is true
for `==` and false for `<=` and `>=`, so `conic_form` on a freshly
constructed inequality always raises, and on a freshly constructed equality
it succeeds. -/
theorem conic_form_requires_epigraph_check :
    (∀ (c : ElementwiseConstraint) (vc : Nat), c.epigraph_checked = false →
      c.conic_form vc
        = Except.error "Cannot canonicalize without check for epigraph substitution.") ∧
    (∀ lhs rhs : List ScalarExpression,
      (ElementwiseConstraint.init lhs rhs Op.eq).map (fun c => c.epigraph_checked)
          = Except.ok true ∧
      (ElementwiseConstraint.init lhs rhs Op.le).map (fun c => c.epigraph_checked)
          = Except.ok false ∧
      (ElementwiseConstraint.init lhs rhs Op.ge).map (fun c => c.epigraph_checked)
          = Except.ok false) ∧
    (∀ (lhs rhs : List ScalarExpression) (vc : Nat),
      (ElementwiseConstraint.init lhs rhs Op.le).map (fun c => c.conic_form vc)
          = Except.ok (Except.error
              "Cannot canonicalize without check for epigraph substitution.") ∧
      (ElementwiseConstraint.init lhs rhs Op.ge).map (fun c => c.conic_form vc)
          = Except.ok (Except.error
              "Cannot canonicalize without check for epigraph substitution.") ∧
      (ElementwiseConstraint.init lhs rhs Op.eq).map (fun c => (c.conic_form vc).isOk)
          = Except.ok true) := by
  refine ⟨?_, fun lhs rhs => ⟨rfl, rfl, rfl⟩, fun lhs rhs vc => ⟨rfl, rfl, rfl⟩⟩
  intro c vc h
  simp [ElementwiseConstraint.conic_form, h]

/-- Witness for C4: a concrete unchecked constraint makes `conic_form` raise. -/
theorem conic_form_requires_epigraph_check_witness :
    ElementwiseConstraint.conic_form
        { lhs := [], rhs := [], initial_operator := Op.le, expr := [],
          operator := Op.le, epigraph_checked := false } 0
      = Except.error "Cannot canonicalize without check for epigraph substitution." :=
  conic_form_requires_epigraph_check.1
    { lhs := [], rhs := [], initial_operator := Op.le, expr := [],
      operator := Op.le, epigraph_checked := false } 0 rfl

/-- C9: for both `Exponential` and `Vector2Norm`, the auxiliary variable is
created only on the first call to `epigraph_conic_form` (while `aux_var` is
`none`) and cached; an immediate second call returns exactly the first
call's output and leaves the cached auxiliary and the variable counter
unchanged, and any later call reuses the same auxiliary id. -/
theorem epigraph_aux_var_cached (x : AtomArg) (args : List AtomArg) (k vc' : Nat) :
    (Exponential.epigraph_step x none k).2.1 = some k ∧
    Exponential.epigraph_step x (Exponential.epigraph_step x none k).2.1
        (Exponential.epigraph_step x none k).2.2
      = Exponential.epigraph_step x none k ∧
    (Exponential.epigraph_step x (some k) vc').2.1 = some k ∧
    (Vector2Norm.epigraph_step args none k).2.1 = some k ∧
    Vector2Norm.epigraph_step args (Vector2Norm.epigraph_step args none k).2.1
        (Vector2Norm.epigraph_step args none k).2.2
      = Vector2Norm.epigraph_step args none k ∧
    (Vector2Norm.epigraph_step args (some k) vc').2.1 = some k :=
  ⟨rfl, rfl, rfl, rfl, rfl, rfl⟩

/-- C10: every constraint constructed with operator `==` has
`is_affine = true`, regardless of the atoms in the stored expression; the
class-level curvature check is disabled (`_CURVATURE_CHECK_ = false`), so a
non-affine equality (here one containing an `Exponential` atom) is accepted
at construction and still classified as affine. -/
theorem equality_constraints_always_affine :
    (∀ lhs rhs : List ScalarExpression,
      (ElementwiseConstraint.init lhs rhs Op.eq).map (fun c => c.is_affine)
        = Except.ok true) ∧
    ElementwiseConstraint._CURVATURE_CHECK_ = false ∧
    (ElementwiseConstraint.init
        [ScalarExpression.mk [(Atom.expAtom (AtomArg.mk [] 0) 0, 1)] 0]
        [ScalarExpression.mk [] 0] Op.eq).map
      (fun c => (c.is_affine, Expression.is_affine c.expr))
      = Except.ok (true, false) :=
  ⟨fun _ _ => rfl, rfl, rfl⟩

/-- C1 (evaluation of the code at the failing input): for a single argument
`2·x₇ + 5` and auxiliary variable id 9, `Vector2Norm.epigraph_conic_form`
returns `(A_rows, A_cols, A_vals, b, K, aux) = ([0,1], [9,7], [1,2], [5,0],
[S 2], 9)`: the tuple leads with the row indices (not the coefficient
values) and the argument's constant term 5 lands in offset coordinate `i = 0`
— the auxiliary variable's coordinate — whereas the spec-described fragment
`Vector2Norm.epigraph_specified` leads with the coefficients and puts the
constant in coordinate `i + 1 = 1`; in particular the offset vectors
disagree. -/
theorem vector2norm_epigraph_diverges :
    Vector2Norm.epigraph_conic_form [AtomArg.mk [(7, 2)] 5] 9
      = ([0, 1], [9, 7], [1, 2], [5, 0], [Cone.mk "S" 2], 9) ∧
    Vector2Norm.epigraph_specified [AtomArg.mk [(7, 2)] 5] 9
      = ([1, 2], [0, 1], [9, 7], [0, 5], [Cone.mk "S" 2], 9) ∧
    (Vector2Norm.epigraph_conic_form [AtomArg.mk [(7, 2)] 5] 9).2.2.2.1
      ≠ (Vector2Norm.epigraph_specified [AtomArg.mk [(7, 2)] 5] 9).2.2.2.1 :=
  ⟨rfl, rfl, by decide⟩

/-- C2 (evaluation of the code at the failing input): on the constraint
`x ≤ 0` evaluated at `x = 1`, `ElementwiseConstraint.violation` raises a
TypeError (the residual array is passed as the `axis` argument of `np.max`)
instead of returning `1.0`; the residual computation as the spec words it
(`ElementwiseConstraint.violation_specified`) does return `1.0` there. -/
theorem elementwise_violation_raises_on_inequality :
    (ElementwiseConstraint.init [ScalarExpression.mk [(Atom.var 0, 1)] 0]
        [ScalarExpression.mk [] 0] Op.le).map
      (fun c => c.violation (fun _ => 1))
      = Except.ok (Except.error
          "TypeError: expr_val passed as the axis argument of np.max") ∧
    (ElementwiseConstraint.init [ScalarExpression.mk [(Atom.var 0, 1)] 0]
        [ScalarExpression.mk [] 0] Op.le).map
      (fun c => c.violation_specified (fun _ => 1))
      = Except.ok 1 := by
  refine ⟨rfl, ?_⟩
  show Except.ok (ElementwiseConstraint.violation_specified _ _) = _
  rw [Except.ok.injEq]
  show defaultNorm [max 0 (ScalarExpression.value (fun _ => 1)
      (ScalarExpression.sub (ScalarExpression.mk [(Atom.var 0, 1)] 0)
        (ScalarExpression.mk [] 0)))] = 1
  norm_num [ScalarExpression.sub, ScalarExpression.combine, insertCoeff,
    ScalarExpression.value, defaultNorm]

lemma normInf_nonneg (x : List ℚ) : 0 ≤ normInf x := by
  induction x with
  | nil => simp [normInf]
  | cons a t ih =>
    show 0 ≤ max |a| (normInf t)
    exact le_max_of_le_right ih

lemma normInf_negpart_eq_zero (c : List ℚ) :
    normInf (c.map (fun t => if 0 ≤ t then 0 else t)) = 0 ↔ ∀ t ∈ c, 0 ≤ t := by
  induction c with
  | nil => simp [normInf]
  | cons a l ih =>
    have hrec : normInf ((a :: l).map (fun t => if 0 ≤ t then 0 else t))
        = max |if 0 ≤ a then (0 : ℚ) else a|
            (normInf (l.map (fun t => if 0 ≤ t then 0 else t))) := rfl
    rw [hrec]
    constructor
    · intro h
      have hu : (0 : ℚ) ≤ |if 0 ≤ a then (0 : ℚ) else a| := abs_nonneg _
      have hv := normInf_nonneg (l.map (fun t => if 0 ≤ t then 0 else t))
      have h1 : |if 0 ≤ a then (0 : ℚ) else a| = 0 :=
        le_antisymm ((le_max_left _ _).trans (le_of_eq h)) hu
      have h2 : normInf (l.map (fun t => if 0 ≤ t then 0 else t)) = 0 :=
        le_antisymm ((le_max_right _ _).trans (le_of_eq h)) hv
      intro t ht
      rcases List.mem_cons.mp ht with rfl | htl
      · have := abs_eq_zero.mp h1
        by_cases h0 : 0 ≤ t
        · exact h0
        · rw [if_neg h0] at this
          exact le_of_eq this.symm
      · exact (ih.mp h2) t htl
    · intro h
      have ha : (if 0 ≤ a then (0 : ℚ) else a) = 0 := if_pos (h a (List.mem_cons_self a l))
      have hl : normInf (l.map (fun t => if 0 ≤ t then 0 else t)) = 0 :=
        ih.mpr (fun t ht => h t (List.mem_cons_of_mem a ht))
      rw [ha, hl]
      simp

/-- C7: for the `m ≤ 2` branch of `PrimalOrdinarySageCone.violation`, the
value on `c = [-1, 2]` is exactly `1`, and in general the violation is `0`
precisely when `c` is entrywise nonnegative (membership degenerates to the
nonnegative orthant; the returned value is the norm of the negative part of
`c`). -/
theorem sage_small_m_violation :
    PrimalOrdinarySageCone.violation [-1, 2] = some 1 ∧
    ∀ c : List ℚ, c.length ≤ 2 →
      (PrimalOrdinarySageCone.violation c = some 0 ↔ ∀ t ∈ c, 0 ≤ t) := by
  constructor
  · decide
  · intro c hlen
    have hc : ¬ (c.length > 2) := by omega
    simp only [PrimalOrdinarySageCone.violation, if_neg hc, Option.some.injEq]
    exact normInf_negpart_eq_zero c

/-- Witness for C7: the entrywise-nonnegative vector `[1, 0]` has violation `0`. -/
theorem sage_small_m_violation_witness :
    PrimalOrdinarySageCone.violation [1, 0] = some 0 :=
  (sage_small_m_violation.2 [1, 0] (by decide)).mpr (by decide)

lemma filter_fst_beq_map_zero {β γ : Type} (terms : List β) (g : β → γ) (j : Nat) :
    (terms.map (fun p => ((0 : Nat), g p))).filter (fun t => t.1 == j)
      = if j = 0 then terms.map (fun p => ((0 : Nat), g p)) else [] := by
  by_cases hj : j = 0
  · subst hj
    rw [if_pos rfl, List.filter_eq_self]
    intro a ha
    obtain ⟨p, -, rfl⟩ := List.mem_map.mp ha
    simp
  · rw [if_neg hj, List.filter_eq_nil_iff]
    intro a ha
    obtain ⟨p, -, rfl⟩ := List.mem_map.mp ha
    simp only [beq_iff_eq]
    exact fun h => hj h.symm

lemma exp_entries (x : AtomArg) (auxId vc : Nat) :
    ((Exponential.epigraph_conic_form x auxId vc).2.1).zip
      (((Exponential.epigraph_conic_form x auxId vc).2.2.1).zip
        ((Exponential.epigraph_conic_form x auxId vc).1))
      = x.terms.map (fun p => ((0 : Nat), ((p.1 : ℤ), p.2)))
          ++ [(1, ((auxId : ℤ), (1 : ℚ))), (2, ((vc : ℤ) - 1, (0 : ℚ)))] := by
  show ((List.replicate x.terms.length 0 ++ [1, 2]).zip
      ((x.terms.map (fun p : Nat × ℚ => (p.1 : ℤ)) ++ [(auxId : ℤ), (vc : ℤ) - 1]).zip
        (x.terms.map (fun p : Nat × ℚ => p.2) ++ [1, 0]))) = _
  have h1 : (x.terms.map (fun p : Nat × ℚ => (p.1 : ℤ))).length
      = (x.terms.map (fun p : Nat × ℚ => p.2)).length := by
    simp
  rw [List.zip_append h1, List.zip_map']
  have h2 : (List.replicate x.terms.length (0 : Nat)).length
      = (x.terms.map (fun p => ((p.1 : ℤ), p.2))).length := by simp
  rw [List.zip_append h2, replicate_length_eq_map_const, List.zip_map']
  rfl

/-- C6: the `Exponential` epigraph fragment has exactly one exponential cone
of size 3, offsets `b = [x.offset, 0, 1]`, and — reading the returned tuple
as `(A_vals, A_rows, A_cols, ...)` — row 0 carries the argument's variable
coefficients, row 1 the auxiliary variable with coefficient 1, and row 2 a
single zero-valued coefficient (at the last-allocated column). -/
theorem exponential_epigraph_fragment (x : AtomArg) (auxId vc : Nat) :
    (Exponential.epigraph_conic_form x auxId vc).2.2.2.2.1 = [Cone.mk "e" 3] ∧
    (Exponential.epigraph_conic_form x auxId vc).2.2.2.1 = [x.offset, 0, 1] ∧
    (((Exponential.epigraph_conic_form x auxId vc).2.1).zip
        (((Exponential.epigraph_conic_form x auxId vc).2.2.1).zip
          ((Exponential.epigraph_conic_form x auxId vc).1))).filter (fun t => t.1 == 0)
      = x.terms.map (fun p => ((0 : Nat), ((p.1 : ℤ), p.2))) ∧
    (((Exponential.epigraph_conic_form x auxId vc).2.1).zip
        (((Exponential.epigraph_conic_form x auxId vc).2.2.1).zip
          ((Exponential.epigraph_conic_form x auxId vc).1))).filter (fun t => t.1 == 1)
      = [(1, ((auxId : ℤ), (1 : ℚ)))] ∧
    (((Exponential.epigraph_conic_form x auxId vc).2.1).zip
        (((Exponential.epigraph_conic_form x auxId vc).2.2.1).zip
          ((Exponential.epigraph_conic_form x auxId vc).1))).filter (fun t => t.1 == 2)
      = [(2, ((vc : ℤ) - 1, (0 : ℚ)))] := by
  refine ⟨rfl, rfl, ?_, ?_, ?_⟩ <;>
    rw [exp_entries, List.filter_append, filter_fst_beq_map_zero] <;>
    simp

/-- C5: whenever `conic_form` succeeds, the emitted offsets are the negated
constant terms of the canonical expression, the canonical operator is `==`
or `<=`, the cone list is the single cone `'0'` (for `==`) or `'+'` (for
`<=`) of size `m`, and every row with stored atoms is emitted as exactly the
atoms' ids with negated coefficients. -/
theorem conic_form_flips_signs (c : ElementwiseConstraint) (vc : Nat)
    (vals : List ℚ) (rows : List Nat) (cols : List ℤ) (b : List ℚ) (K : List Cone)
    (aux : List Nat)
    (hok : c.conic_form vc = Except.ok (vals, rows, cols, b, K, aux)) :
    b = c.expr.map (fun se => -se.offset) ∧
    (c.operator = Op.eq ∨ c.operator = Op.le) ∧
    K = [Cone.mk (if c.operator = Op.eq then "0" else "+") c.expr.length] ∧
    ∀ (p : Nat) (se : ScalarExpression), c.expr.get? p = some se →
      se.atoms_to_coeffs ≠ [] →
      (rows.zip (cols.zip vals)).filter (fun t => t.1 == p)
        = se.atoms_to_coeffs.map (fun q => ((p : Nat), ((q.1.id : ℤ), -q.2))) := by
  rcases hchk : c.epigraph_checked with _ | _
  · simp only [ElementwiseConstraint.conic_form, hchk, Bool.not_false, if_true] at hok
    cases hok
  · rcases hop : c.operator with _ | _ | _ <;>
      simp only [ElementwiseConstraint.conic_form, hchk, hop, Bool.not_true,
        Bool.false_eq_true, if_false] at hok
    case ge => cases hok
    case eq =>
      obtain ⟨rfl, rfl, rfl, rfl, rfl, rfl⟩ := hok
      refine ⟨?_, Or.inl rfl, by simp, ?_⟩
      · rw [ecEmit_eq_blocks]
      · intro p se hse hne
        rw [ecEmit_entries]
        have hfil := ecBlocks_filter vc c.expr 0 p se hse
        rw [Nat.zero_add] at hfil
        rw [hfil, if_neg]
        intro hq
        exact hne (List.isEmpty_iff.mp hq)
    case le =>
      obtain ⟨rfl, rfl, rfl, rfl, rfl, rfl⟩ := hok
      refine ⟨?_, Or.inr rfl, by simp, ?_⟩
      · rw [ecEmit_eq_blocks]
      · intro p se hse hne
        rw [ecEmit_entries]
        have hfil := ecBlocks_filter vc c.expr 0 p se hse
        rw [Nat.zero_add] at hfil
        rw [hfil, if_neg]
        intro hq
        exact hne (List.isEmpty_iff.mp hq)

/-- Witness for C5: a concrete checked constraint `2·x₀ + 3 <= 0` compiles
with negated offset `b = [-3]` and the nonnegative-orthant cone. -/
theorem conic_form_flips_signs_witness :
    ([(-3 : ℚ)]
        = [ScalarExpression.mk [(Atom.var 0, 2)] 3].map (fun se => -se.offset)) ∧
    (([(0 : Nat)].zip (([(0 : ℤ)]).zip ([(-2 : ℚ)]))).filter (fun t => t.1 == 0)
        = (ScalarExpression.mk [(Atom.var 0, 2)] 3).atoms_to_coeffs.map
            (fun q => ((0 : Nat), ((q.1.id : ℤ), -q.2)))) := by
  have h := conic_form_flips_signs
    { lhs := [ScalarExpression.mk [(Atom.var 0, 2)] 3], rhs := [ScalarExpression.mk [] 0],
      initial_operator := Op.le, expr := [ScalarExpression.mk [(Atom.var 0, 2)] 3],
      operator := Op.le, epigraph_checked := true } 1
    [-2] [0] [0] [-3] [Cone.mk "+" 1] [] rfl
  exact ⟨h.1, h.2.2.2 0 (ScalarExpression.mk [(Atom.var 0, 2)] 3) rfl (by decide)⟩

/-- C8: a row of the canonical expression with no atoms still produces
exactly one coordinate entry — value `0`, column `vc - 1` where `vc` is the
process-wide variable count — together with the offset `b[i] = -offset`. -/
theorem constant_row_placeholder (c : ElementwiseConstraint) (vc : Nat)
    (vals : List ℚ) (rows : List Nat) (cols : List ℤ) (b : List ℚ) (K : List Cone)
    (aux : List Nat) (p : Nat) (se : ScalarExpression)
    (hok : c.conic_form vc = Except.ok (vals, rows, cols, b, K, aux))
    (hse : c.expr.get? p = some se)
    (hempty : se.atoms_to_coeffs = []) :
    (rows.zip (cols.zip vals)).filter (fun t => t.1 == p)
      = [(p, ((vc : ℤ) - 1, (0 : ℚ)))] ∧
    b.get? p = some (-se.offset) := by
  rcases hchk : c.epigraph_checked with _ | _
  · simp only [ElementwiseConstraint.conic_form, hchk, Bool.not_false, if_true] at hok
    cases hok
  · rcases hop : c.operator with _ | _ | _ <;>
      simp only [ElementwiseConstraint.conic_form, hchk, hop, Bool.not_true,
        Bool.false_eq_true, if_false] at hok
    case ge => cases hok
    case eq =>
      obtain ⟨rfl, rfl, rfl, rfl, rfl, rfl⟩ := hok
      constructor
      · rw [ecEmit_entries]
        have hfil := ecBlocks_filter vc c.expr 0 p se hse
        rw [Nat.zero_add] at hfil
        rw [hfil, if_pos (by rw [hempty]; rfl)]
      · rw [ecEmit_eq_blocks]
        show (c.expr.map (fun se => -se.offset)).get? p = _
        rw [List.get?_map, hse]
        rfl
    case le =>
      obtain ⟨rfl, rfl, rfl, rfl, rfl, rfl⟩ := hok
      constructor
      · rw [ecEmit_entries]
        have hfil := ecBlocks_filter vc c.expr 0 p se hse
        rw [Nat.zero_add] at hfil
        rw [hfil, if_pos (by rw [hempty]; rfl)]
      · rw [ecEmit_eq_blocks]
        show (c.expr.map (fun se => -se.offset)).get? p = _
        rw [List.get?_map, hse]
        rfl

/-- Witness for C8: the constant constraint `4 <= 0` (one atom-free row),
compiled with 3 variables allocated, emits the single placeholder entry
`(0, 2, 0)` and offset `-4`. -/
theorem constant_row_placeholder_witness :
    (([(0 : Nat)].zip (([(2 : ℤ)]).zip ([(0 : ℚ)]))).filter (fun t => t.1 == 0)
        = [((0 : Nat), ((3 : ℤ) - 1, (0 : ℚ)))]) ∧
    ([(-4 : ℚ)].get? 0 = some (-(ScalarExpression.mk [] 4).offset)) :=
  constant_row_placeholder
    { lhs := [ScalarExpression.mk [] 4], rhs := [ScalarExpression.mk [] 0],
      initial_operator := Op.le, expr := [ScalarExpression.mk [] 4],
      operator := Op.le, epigraph_checked := true } 3
    [0] [0] [2] [-4] [Cone.mk "+" 1] [] 0 (ScalarExpression.mk [] 4) rfl rfl rfl

end Sageopt
